import Mathlib

/-!
Shallow embedding of `debate_anlyz.py` (debate-analysis repository) and
verification of the frozen claims about its specification.

Python strings are modelled as `List Char`, Python floats as exact
rationals `ℚ` (with division returning `none` on a zero denominator, as
Python float division raises `ZeroDivisionError`), and the Python dicts
used by the program as association lists: the word-count dict in
insertion order with in-place bumps, and the syllable dict with newest
entries in front so that lookup realizes overwrite-on-duplicate.
-/

namespace Debate

/-- Apostrophe character (code point 39), a word character in `REGEX_WORDS`. -/
def apos : Char := Char.ofNat 39

/-- Characters kept by `REGEX_WORDS = re.compile(r"[^a-zA-Z0-9_']+")`:
ASCII letters, digits, underscore and apostrophe. -/
def isWordChar (c : Char) : Bool :=
  c.isAlpha || c.isDigit || c == '_' || c == apos

/-- Sentence delimiters of `re.split(r"[\.?:!]+", input)` in `flesch_params`. -/
def isSentenceDelim (c : Char) : Bool :=
  c == '.' || c == '?' || c == ':' || c == '!'

/-- Whitespace, modelling the regex class `\s` used by `init_cmu_dict`. -/
def isSpace (c : Char) : Bool := c.isWhitespace

/-- Lowercase vowels: the character class of `re.findall(r"[aeiou]+", word)`
in `count_syllables`.  The Python regex is case-sensitive. -/
def isLowerVowel (c : Char) : Bool :=
  c == 'a' || c == 'e' || c == 'i' || c == 'o' || c == 'u'

/-- `re.split` with a pattern matching runs of one-or-more delimiter
characters (those satisfying `p`): the segments between maximal delimiter
runs, including empty segments at the boundaries.  This models
`REGEX_WORDS.split` and the sentence split in `flesch_params`. -/
def splitRuns (p : Char → Bool) : List Char → List (List Char)
  | [] => [[]]
  | c :: cs =>
    if p c then
      match cs with
      | [] => [[], []]
      | c2 :: _ => if p c2 then splitRuns p cs else [] :: splitRuns p cs
    else
      match splitRuns p cs with
      | [] => [[c]]
      | t :: ts => (c :: t) :: ts

/-- Sentence tokenizer of `flesch_params`: `re.split(r"[\.?:!]+", input)`. -/
def splitSentences (s : List Char) : List (List Char) :=
  splitRuns isSentenceDelim s

/-- Word tokenizer `REGEX_WORDS.split(input)`. -/
def splitWords (s : List Char) : List (List Char) :=
  splitRuns (fun c => !(isWordChar c)) s

/-- Association list lookup, modelling Python `d[k]` / `k in d`. -/
def alookup {β : Type} (k : List Char) : List (List Char × β) → Option β
  | [] => none
  | e :: d => if e.1 = k then some e.2 else alookup k d

/-- The `SYLLABLES` dictionary: association list with the most recently
stored entry in front, so `alookup` sees the latest binding for a key. -/
abbrev Dict := List (List Char × Nat)

/-- Models `len(re.findall(r"[aeiou]+", word))`: the number of maximal
nonempty runs of lowercase vowels in the word (each regex match is one
maximal vowel run). -/
def countVowelGroups (w : List Char) : Nat :=
  ((splitRuns (fun c => !(isLowerVowel c)) w).filter (fun t => !(t.isEmpty))).length

/-- Left-to-right scan counting the positions at which a maximal run of
characters satisfying `v` starts (`prev` records whether the previous
character satisfied `v`). -/
def runScan (v : Char → Bool) : Bool → List Char → Nat
  | _, [] => 0
  | prev, c :: cs => (if v c && !prev then 1 else 0) + runScan v (v c) cs

/-- Number of maximal runs of characters satisfying `v` in `s`. -/
def countRuns (v : Char → Bool) (s : List Char) : Nat := runScan v false s

/-- `count_syllables(word)`: dictionary lookup on the uppercased word,
falling back to counting lowercase-vowel groups. -/
def count_syllables (d : Dict) (word : List Char) : Nat :=
  match alookup (word.map Char.toUpper) d with
  | some n => n
  | none => countVowelGroups word

/-- Word list used by `flesch_params`: split, then drop empty tokens
(`word != ""`). -/
def nonEmptyWords (s : List Char) : List (List Char) :=
  (splitWords s).filter (fun w => !(w.isEmpty))

/-- `flesch_params(input)`: sentence, word and syllable counts as numbers. -/
def flesch_params (d : Dict) (input : List Char) : ℚ × ℚ × ℚ :=
  let num_sentences := (splitSentences input).length
  let words := nonEmptyWords input
  let num_words := words.length
  let num_syllables := (words.map (count_syllables d)).sum
  ((num_sentences : ℚ), (num_words : ℚ), (num_syllables : ℚ))

/-- Python float division: raises `ZeroDivisionError` (modelled as `none`)
when the denominator is zero. -/
def pydiv (a b : ℚ) : Option ℚ := if b = 0 then none else some (a / b)

/-- `flesch_reading_ease(input)`. -/
def flesch_reading_ease (d : Dict) (input : List Char) : Option ℚ :=
  match flesch_params d input with
  | (num_sentences, num_words, num_syllables) => do
    let q1 ← pydiv num_words num_sentences
    let q2 ← pydiv num_syllables num_words
    pure (206.835 - 1.015 * q1 - 84.6 * q2)

/-- `flesch_kincaid_grade_level(input)`. -/
def flesch_kincaid_grade_level (d : Dict) (input : List Char) : Option ℚ :=
  match flesch_params d input with
  | (num_sentences, num_words, num_syllables) => do
    let q1 ← pydiv num_words num_sentences
    let q2 ← pydiv num_syllables num_words
    pure (0.39 * q1 + 11.8 * q2 - 15.59)

/-- The `BORING_WORDS` stoplist. -/
def BORING_WORDS : List (List Char) :=
  ["SO".toList, "I".toList, "I".toList ++ [apos] ++ "M".toList, "IS".toList,
   "AND".toList, "NOT".toList, "THE".toList, "YOU".toList, "TOO".toList,
   "THIS".toList, "A".toList, "TO".toList, "WAS".toList, "THAT".toList,
   "IT".toList, "HAVE".toList, "ME".toList, "WITH".toList, "FOR".toList,
   "OF".toList, "BUT".toList, "S".toList, "MY".toList, "JUST".toList,
   "DO".toList, "IN".toList, "ON".toList, "LL".toList, "AS".toList,
   "ARE".toList, "T".toList, "RE".toList, "AT".toList, "THEN".toList,
   "BE".toList, "BY".toList, "WOULD".toList, "HAD".toList, "HAS".toList,
   "AN".toList]

/-- The `PRONOUNS` stoplist. -/
def PRONOUNS : List (List Char) :=
  ["YOU".toList, "YOUR".toList, "YOURS".toList, "HE".toList, "HIM".toList,
   "HIS".toList, "SHE".toList, "HER".toList, "HERS".toList, "IT".toList,
   "ITS".toList, "IT".toList ++ [apos] ++ "S".toList, "WE".toList,
   "OUR".toList, "OURS".toList, "THEY".toList, "THEM".toList,
   "THEIRS".toList, "THAT".toList ++ [apos] ++ "S".toList]

/-- One word's update of the `words` dict in `get_words_with_count`:
`words[word] += 1` if present (count bumped in place, insertion order
kept), else `words[word] = 1` (appended at the end). -/
def bumpWord (ws : List (List Char × Nat)) (w : List Char) : List (List Char × Nat) :=
  match alookup w ws with
  | some _ => ws.map (fun e => if e.1 = w then (e.1, e.2 + 1) else e)
  | none => ws ++ [(w, 1)]

/-- The loop body of `get_words_with_count`: the `if`/`elif` chain over
one token. -/
def wordsStep (exclude_boring exclude_pronouns : Bool)
    (ws : List (List Char × Nat)) (w : List Char) : List (List Char × Nat) :=
  if exclude_boring && decide (w ∈ BORING_WORDS) then ws
  else if exclude_pronouns && decide (w ∈ PRONOUNS) then ws
  else bumpWord ws w

/-- `get_words_with_count(input, ..., as_sorted=False)`: the `words` dict,
an insertion-ordered mapping from uppercase token to count. -/
def wordsDict (input : List Char) (exclude_boring exclude_pronouns : Bool) :
    List (List Char × Nat) :=
  (splitWords (input.map Char.toUpper)).foldl (wordsStep exclude_boring exclude_pronouns) []

/-- Stable insertion into a list kept in descending `key` order: the new
element, which stood to the left of the list in the original order, goes
in front of elements with an equal key. -/
def insertDescBy {α β : Type} [LinearOrder β] (key : α → β) (x : α) : List α → List α
  | [] => [x]
  | y :: ys => if key y ≤ key x then x :: y :: ys else y :: insertDescBy key x ys

/-- Stable sort by `key` descending, modelling Python
`sorted(..., key=..., reverse=True)` (a stable sort's output is uniquely
determined, so insertion sort is a faithful model of timsort). -/
def sortDescBy {α β : Type} [LinearOrder β] (key : α → β) (l : List α) : List α :=
  l.foldr (insertDescBy key) []

/-- `get_words_with_count(input, exclude_boring, exclude_pronouns)` with
the default `as_sorted=True`: the dict items sorted by count descending. -/
def get_words_with_count (input : List Char) (exclude_boring exclude_pronouns : Bool) :
    List (List Char × Nat) :=
  sortDescBy (fun e => e.2) (wordsDict input exclude_boring exclude_pronouns)

/-- `get_most_used_words(input, exclude_pronouns)`. -/
def get_most_used_words (input : List Char) (exclude_pronouns : Bool) :
    List (List Char × Nat) :=
  (get_words_with_count input true exclude_pronouns).take 20

/-- `get_total_word_count(input)`: length of the unfiltered split. -/
def get_total_word_count (input : List Char) : Nat :=
  (splitWords input).length

/-- `get_total_syllable_count(input)`: syllables summed over the
unfiltered split. -/
def get_total_syllable_count (d : Dict) (input : List Char) : Nat :=
  ((splitWords input).map (count_syllables d)).sum

/-- `get_words_with_deltas(input_a, input_b)`. -/
def get_words_with_deltas (input_a input_b : List Char) : List (List Char × ℤ) :=
  let words_a := get_words_with_count input_a false false
  let words_b := wordsDict input_b false false
  let deltas := words_a.map (fun w =>
    (w.1, (w.2 : ℤ) - (match alookup w.1 words_b with | some n => (n : ℤ) | none => 0)))
  (sortDescBy (fun e => e.2) deltas).take 20

/-- `re.split(r"\s+", line, maxsplit=1)`: the part before the first
whitespace run, and if there is any whitespace, the part after it. -/
def splitFirstWS (line : List Char) : List (List Char) :=
  let w := line.takeWhile (fun c => !(isSpace c))
  match line.dropWhile (fun c => !(isSpace c)) with
  | [] => [w]
  | rest => [w, rest.dropWhile isSpace]

/-- Syllable count of one dictionary line's phoneme part: the number of
whitespace-separated phonemes whose final character is a digit. -/
def phonemeDigitCount (s : List Char) : Nat :=
  ((splitRuns isSpace s).filter
    (fun ph => !(ph.isEmpty) && (match ph.getLast? with
                                 | some c => c.isDigit
                                 | none => false))).length

/-- `init_cmu_dict`, as a function of the dictionary file's lines: lines
that do not split into exactly two parts are skipped; otherwise
`SYLLABLES[split[0]] = num_syllables`.  Storing prepends the entry, so
`alookup` sees the latest binding (overwrite-on-duplicate). -/
def init_cmu_dict (lines : List (List Char)) : Dict :=
  lines.foldl (fun d line =>
    match splitFirstWS line with
    | [w, rest] => (w, phonemeDigitCount rest) :: d
    | _ => d) []

/-- Parser of one dictionary line following the amended reading of the
claim: a line containing no whitespace is skipped; a line containing
whitespace is split at its first whitespace run into the word and the
(possibly empty) remainder, whose digit-final phonemes are counted. -/
def parseSpecLine (line : List Char) : Option (List Char × Nat) :=
  if line.any isSpace then
    some (line.takeWhile (fun c => !(isSpace c)),
          phonemeDigitCount ((line.dropWhile (fun c => !(isSpace c))).dropWhile isSpace))
  else none

/-- Token filter equivalent to the `if`/`elif` chain of
`get_words_with_count`: a token is kept iff no requested stoplist
contains it. -/
def keepB (exclude_boring exclude_pronouns : Bool) (w : List Char) : Bool :=
  !(exclude_boring && decide (w ∈ BORING_WORDS)) &&
  !(exclude_pronouns && decide (w ∈ PRONOUNS))

/-- Plain accumulation of word counts with no stoplist filtering. -/
def buildCounts (ts : List (List Char)) : List (List Char × Nat) :=
  ts.foldl bumpWord []

/-- 1 when the list starts with a non-delimiter character (so a token run
starts at position 0), else 0. -/
def headStartsRun (p : Char → Bool) : List Char → Nat
  | [] => 0
  | c :: _ => if p c then 0 else 1

/-- Number of occurrences of a word in text B's frequency table, with
absence counted as zero: `words_b[word] if word in words_b else 0` in
`get_words_with_deltas`. -/
def countInB (input_b : List Char) (k : List Char) : ℤ :=
  match alookup k (wordsDict input_b false false) with
  | some n => (n : ℤ)
  | none => 0

/-- The full (pre-truncation) delta list of `get_words_with_deltas`: one
pair per entry of A's ranked word list. -/
def deltaList (input_a input_b : List Char) : List (List Char × ℤ) :=
  (get_words_with_count input_a false false).map
    (fun w => (w.1, (w.2 : ℤ) - countInB input_b w.1))

/-!
### Lemmas about the stable descending insertion sort
-/

section SortLemmas

variable {α β : Type} [LinearOrder β] (key : α → β)

theorem insertDescBy_perm (x : α) (l : List α) :
    List.Perm (insertDescBy key x l) (x :: l) := by
  induction l with
  | nil => exact List.Perm.refl _
  | cons y ys ih =>
    rw [insertDescBy]
    split
    · exact List.Perm.refl _
    · exact (ih.cons y).trans (List.Perm.swap x y ys)

theorem sortDescBy_perm (l : List α) : List.Perm (sortDescBy key l) l := by
  induction l with
  | nil => exact List.Perm.refl _
  | cons x xs ih => exact (insertDescBy_perm key x _).trans (ih.cons x)

theorem mem_insertDescBy {x z : α} {l : List α} :
    z ∈ insertDescBy key x l ↔ z = x ∨ z ∈ l :=
  (insertDescBy_perm key x l).mem_iff.trans List.mem_cons

theorem pairwise_insertDescBy {x : α} {l : List α}
    (h : l.Pairwise (fun a b => key b ≤ key a)) :
    (insertDescBy key x l).Pairwise (fun a b => key b ≤ key a) := by
  induction l with
  | nil => simp [insertDescBy]
  | cons y ys ih =>
    rw [insertDescBy]
    rcases List.pairwise_cons.mp h with ⟨hy, hys⟩
    split
    · rename_i hk
      exact List.pairwise_cons.mpr
        ⟨fun z hz => by
          rcases List.mem_cons.mp hz with rfl | hz
          · exact hk
          · exact le_trans (hy z hz) hk, h⟩
    · rename_i hk
      refine List.pairwise_cons.mpr ⟨fun z hz => ?_, ih hys⟩
      rcases (mem_insertDescBy key).mp hz with rfl | hz
      · exact le_of_lt (lt_of_not_le hk)
      · exact hy z hz

theorem pairwise_sortDescBy (l : List α) :
    (sortDescBy key l).Pairwise (fun a b => key b ≤ key a) := by
  induction l with
  | nil => simp [sortDescBy]
  | cons x xs ih => exact pairwise_insertDescBy key ih

theorem insertDescBy_filter_eq {x : α} {n : β} (l : List α) (hx : key x = n) :
    (insertDescBy key x l).filter (fun e => decide (key e = n)) =
      x :: l.filter (fun e => decide (key e = n)) := by
  induction l with
  | nil => simp [insertDescBy, hx]
  | cons y ys ih =>
    rw [insertDescBy]
    split
    · simp [hx]
    · rename_i hk
      have hy : ¬ key y = n := fun hyn => hk (le_of_eq (hx ▸ hyn))
      have hqy : (decide (key y = n)) = false := by simp [hy]
      simp [List.filter_cons, hqy, ih]

theorem insertDescBy_filter_ne {x : α} {n : β} (l : List α) (hx : key x ≠ n) :
    (insertDescBy key x l).filter (fun e => decide (key e = n)) =
      l.filter (fun e => decide (key e = n)) := by
  induction l with
  | nil => simp [insertDescBy, hx]
  | cons y ys ih =>
    rw [insertDescBy]
    split
    · simp [hx]
    · simp [List.filter_cons, ih]

theorem sortDescBy_filter (l : List α) (n : β) :
    (sortDescBy key l).filter (fun e => decide (key e = n)) =
      l.filter (fun e => decide (key e = n)) := by
  induction l with
  | nil => rfl
  | cons x xs ih =>
    show (insertDescBy key x (sortDescBy key xs)).filter _ = _
    by_cases hx : key x = n
    · rw [insertDescBy_filter_eq key _ hx, ih, List.filter_cons]
      simp [hx]
    · rw [insertDescBy_filter_ne key _ hx, ih, List.filter_cons]
      simp [hx]

theorem sortDescBy_eq_self {l : List α} (h : l.Pairwise (fun a b => key b ≤ key a)) :
    sortDescBy key l = l := by
  induction l with
  | nil => rfl
  | cons x xs ih =>
    rcases List.pairwise_cons.mp h with ⟨hx, hxs⟩
    show insertDescBy key x (sortDescBy key xs) = x :: xs
    rw [ih hxs]
    cases xs with
    | nil => rfl
    | cons y ys =>
      rw [insertDescBy, if_pos (hx y (List.mem_cons_self y ys))]

theorem sortDescBy_length (l : List α) : (sortDescBy key l).length = l.length :=
  (sortDescBy_perm key l).length_eq

end SortLemmas

/-!
### Lemmas about `splitRuns`
-/

theorem splitRuns_cons (p : Char → Bool) (c : Char) (cs : List Char) :
    splitRuns p (c :: cs) =
      if p c then
        match cs with
        | [] => [[], []]
        | c2 :: _ => if p c2 then splitRuns p cs else [] :: splitRuns p cs
      else
        match splitRuns p cs with
        | [] => [[c]]
        | t :: ts => (c :: t) :: ts := rfl

theorem splitRuns_delim_nil {p : Char → Bool} {c : Char} (hc : p c = true) :
    splitRuns p [c] = [[], []] := by
  rw [splitRuns_cons, if_pos hc]

theorem splitRuns_delim_delim {p : Char → Bool} {c c2 : Char} (cs : List Char)
    (hc : p c = true) (hc2 : p c2 = true) :
    splitRuns p (c :: c2 :: cs) = splitRuns p (c2 :: cs) := by
  rw [splitRuns_cons, if_pos hc]
  show (if p c2 = true then splitRuns p (c2 :: cs) else [] :: splitRuns p (c2 :: cs)) = _
  rw [if_pos hc2]

theorem splitRuns_delim_word {p : Char → Bool} {c c2 : Char} (cs : List Char)
    (hc : p c = true) (hc2 : p c2 = false) :
    splitRuns p (c :: c2 :: cs) = [] :: splitRuns p (c2 :: cs) := by
  rw [splitRuns_cons, if_pos hc]
  show (if p c2 = true then splitRuns p (c2 :: cs) else [] :: splitRuns p (c2 :: cs)) = _
  rw [if_neg (by simp [hc2])]

theorem splitRuns_word {p : Char → Bool} {c : Char} {cs t : List Char}
    {ts : List (List Char)} (hc : p c = false) (hs : splitRuns p cs = t :: ts) :
    splitRuns p (c :: cs) = (c :: t) :: ts := by
  rw [splitRuns_cons, if_neg (by simp [hc]), hs]

theorem splitRuns_ne_nil (p : Char → Bool) (l : List Char) : splitRuns p l ≠ [] := by
  induction l with
  | nil => simp [splitRuns]
  | cons c cs ih =>
    by_cases hp : p c
    · cases cs with
      | nil => rw [splitRuns_delim_nil hp]; simp
      | cons c2 cs2 =>
        by_cases hp2 : p c2
        · rw [splitRuns_delim_delim _ hp hp2]; exact ih
        · rw [splitRuns_delim_word _ hp (by simpa using hp2)]; simp
    · rcases hs : splitRuns p cs with _ | ⟨t, ts⟩
      · exact absurd hs ih
      · rw [splitRuns_word (by simpa using hp) hs]; simp

theorem splitRuns_head? (p : Char → Bool) (l : List Char) :
    (splitRuns p l).head? = some (l.takeWhile (fun c => !(p c))) := by
  induction l with
  | nil => simp [splitRuns]
  | cons c cs ih =>
    by_cases hp : p c
    · have ht : (c :: cs).takeWhile (fun c => !(p c)) = [] := by
        simp [List.takeWhile_cons, hp]
      rw [ht]
      cases cs with
      | nil => rw [splitRuns_delim_nil hp]; rfl
      | cons c2 cs2 =>
        by_cases hp2 : p c2
        · rw [splitRuns_delim_delim _ hp hp2, ih]
          simp [List.takeWhile_cons, hp2]
        · rw [splitRuns_delim_word _ hp (by simpa using hp2)]; rfl
    · have ht : (c :: cs).takeWhile (fun c => !(p c)) =
          c :: cs.takeWhile (fun c => !(p c)) := by
        simp [List.takeWhile_cons, hp]
      rcases hs : splitRuns p cs with _ | ⟨t, ts⟩
      · exact absurd hs (splitRuns_ne_nil p cs)
      · rw [splitRuns_word (by simpa using hp) hs, ht]
        rw [hs] at ih
        simp only [List.head?_cons, Option.some.injEq] at ih
        simp [ih]

theorem splitRuns_trailing (p : Char → Bool) (l : List Char) (c : Char) (hc : p c = true) :
    (splitRuns p (l ++ [c])).getLast? = some [] ∧ 2 ≤ (splitRuns p (l ++ [c])).length := by
  induction l with
  | nil => rw [List.nil_append, splitRuns_delim_nil hc]; simp
  | cons a l2 ih =>
    rw [List.cons_append]
    by_cases hpa : p a
    · rcases hll : l2 ++ [c] with _ | ⟨c2, rest⟩
      · exact absurd hll (by simp)
      · rw [hll] at ih
        by_cases hp2 : p c2
        · rw [splitRuns_delim_delim _ hpa hp2]
          exact ih
        · rw [splitRuns_delim_word _ hpa (by simpa using hp2)]
          rcases hs : splitRuns p (c2 :: rest) with _ | ⟨t, ts⟩
          · exact absurd hs (splitRuns_ne_nil p _)
          · rw [hs] at ih
            refine ⟨?_, by simp⟩
            rw [List.getLast?_cons_cons]
            exact ih.1
    · rcases hs : splitRuns p (l2 ++ [c]) with _ | ⟨t, ts⟩
      · exact absurd hs (splitRuns_ne_nil p _)
      · rw [splitRuns_word (by simpa using hpa) hs]
        rw [hs] at ih
        rcases ih with ⟨ih1, ih2⟩
        rcases ts with _ | ⟨t2, ts2⟩
        · simp at ih2
        · refine ⟨?_, by simp⟩
          rw [List.getLast?_cons_cons, ← List.getLast?_cons_cons (a := t)]
          exact ih1

theorem length_splitRuns_pos (p : Char → Bool) (l : List Char) :
    0 < (splitRuns p l).length :=
  List.length_pos.mpr (splitRuns_ne_nil p l)

/-- An element of the list fails the filter, so filtering strictly shrinks. -/
theorem length_filter_lt_of_mem {α : Type} {q : α → Bool} {l : List α} {x : α}
    (hx : x ∈ l) (hq : q x = false) : (l.filter q).length < l.length := by
  induction l with
  | nil => cases hx
  | cons y ys ih =>
    rw [List.filter_cons]
    rcases List.mem_cons.mp hx with rfl | hx2
    · rw [hq]
      simp only [List.length_cons]
      exact Nat.lt_succ_of_le (List.length_filter_le q ys)
    · split
      · simpa using ih hx2
      · simp only [List.length_cons]
        exact Nat.lt_succ_of_lt (ih hx2)

/-!
### Maximal runs: the scan count agrees with the number of nonempty segments
-/

theorem runScan_cons (v : Char → Bool) (prev : Bool) (c : Char) (cs : List Char) :
    runScan v prev (c :: cs) = (if v c && !prev then 1 else 0) + runScan v (v c) cs := rfl

theorem filter_splitRuns_length (p : Char → Bool) (l : List Char) (b : Bool) :
    ((splitRuns p l).filter (fun t => !(t.isEmpty))).length =
      runScan (fun c => !(p c)) b l + (if b then headStartsRun p l else 0) := by
  induction l generalizing b with
  | nil => cases b <;> simp [splitRuns, runScan, headStartsRun]
  | cons c cs ih =>
    by_cases hp : p c
    · have hrs : runScan (fun c => !(p c)) b (c :: cs) =
          runScan (fun c => !(p c)) false cs := by
        simp [runScan, hp]
      have hex : (if b then headStartsRun p (c :: cs) else 0) = 0 := by
        cases b <;> simp [headStartsRun, hp]
      rw [hrs, hex]
      cases cs with
      | nil => rw [splitRuns_delim_nil hp]; simp [runScan]
      | cons c2 cs2 =>
        by_cases hp2 : p c2
        · rw [splitRuns_delim_delim _ hp hp2]
          simpa using ih false
        · rw [splitRuns_delim_word _ hp (by simpa using hp2)]
          simpa using ih false
    · have hpc : p c = false := by simpa using hp
      rcases hs : splitRuns p cs with _ | ⟨t, ts⟩
      · exact absurd hs (splitRuns_ne_nil p cs)
      · rw [splitRuns_word hpc hs]
        have hthead : t = cs.takeWhile (fun c => !(p c)) := by
          have := splitRuns_head? p cs
          rw [hs] at this
          simpa using this
        have hfc : (((c :: t) :: ts).filter (fun t => !(t.isEmpty))).length =
            (ts.filter (fun t => !(t.isEmpty))).length + 1 := by
          simp [List.filter_cons]
        rw [hfc, runScan_cons]
        cases cs with
        | nil =>
          simp only [splitRuns] at hs
          rcases hs with ⟨rfl, rfl⟩ | _
          · cases b <;> simp [runScan, headStartsRun, hpc]
        | cons c2 cs2 =>
          have iht := ih (b := true)
          rw [hs] at iht
          have iht2 : (ts.filter (fun t => !(t.isEmpty))).length =
              runScan (fun c => !(p c)) true (c2 :: cs2) := by
            by_cases hp2 : p c2
            · have ht : t = [] := by
                rw [hthead]
                simp [List.takeWhile_cons, hp2]
              subst ht
              simpa [List.filter_cons, headStartsRun, hp2] using iht
            · have hp2f : p c2 = false := by simpa using hp2
              have ht : t.isEmpty = false := by
                rw [hthead]
                simp [List.takeWhile_cons, hp2f]
              rw [List.filter_cons, ht] at iht
              simp [headStartsRun, hp2f] at iht
              omega
          rw [iht2]
          cases b <;> simp [hpc, headStartsRun] <;> omega

theorem countVowelGroups_eq_countRuns (w : List Char) :
    countVowelGroups w = countRuns isLowerVowel w := by
  have h := filter_splitRuns_length (fun c => !(isLowerVowel c)) w false
  have hvv : (fun c => !(!(isLowerVowel c))) = isLowerVowel := by
    funext c
    simp
  rw [hvv] at h
  simpa [countVowelGroups, countRuns] using h

/-!
### Claim C2: `count_syllables`
-/

/-- C2 counterexample: the claim says the fallback counts vowel runs
case-insensitively, but for the word "E" (absent from the dictionary) the
code returns 0 while the case-insensitive run count is 1 — the regex
`[aeiou]+` only matches lowercase vowels. -/
theorem claim2_cex :
    alookup ("E".toList.map Char.toUpper) ([] : Dict) = none ∧
    count_syllables [] "E".toList = 0 ∧
    countRuns (fun c => isLowerVowel c.toLower) "E".toList = 1 ∧
    count_syllables [] "E".toList ≠ countRuns (fun c => isLowerVowel c.toLower) "E".toList := by
  decide

/-- C2 amended: `count_syllables` uppercases the word and returns the
dictionary count when present; for a word absent from the dictionary it
returns the number of maximal runs of lowercase vowel characters
a,e,i,o,u in the word (case-sensitively: uppercase vowels are not
counted). -/
theorem claim2_amended (d : Dict) (word : List Char) :
    (∀ n : Nat, alookup (word.map Char.toUpper) d = some n → count_syllables d word = n) ∧
    (alookup (word.map Char.toUpper) d = none →
      count_syllables d word = countRuns isLowerVowel word) := by
  constructor
  · intro n h
    simp [count_syllables, h]
  · intro h
    simp [count_syllables, h, countVowelGroups_eq_countRuns]

/-- Witness for C2: both hypotheses are satisfiable — a dictionary hit
returns the stored count, and a miss returns the lowercase-vowel run
count. -/
theorem claim2_amended_witness :
    (alookup ("ab".toList.map Char.toUpper) [("AB".toList, 5)] = some 5 ∧
      count_syllables [("AB".toList, 5)] "ab".toList = 5) ∧
    (alookup ("echo".toList.map Char.toUpper) [("AB".toList, 5)] = none ∧
      count_syllables [("AB".toList, 5)] "echo".toList = countRuns isLowerVowel "echo".toList) :=
  ⟨⟨by decide, (claim2_amended [("AB".toList, 5)] "ab".toList).1 5 (by decide)⟩,
   ⟨by decide, (claim2_amended [("AB".toList, 5)] "echo".toList).2 (by decide)⟩⟩

/-!
### Claim C3: sentence splitting
-/

/-- C3 counterexample: splitting "A. B! C?" yields 4 segments
("A", " B", " C" and a trailing empty one), not the 3 the claim states. -/
theorem claim3_cex :
    (splitSentences "A. B! C?".toList).length ≠ 3 ∧
    (splitSentences "A. B! C?".toList).length = 4 := by
  decide

/-- C3 amended: sentence splitting splits on runs of one-or-more
characters from the set `{'.', '?', ':', '!'}`, keeping a trailing empty
segment when the text ends with a delimiter; splitting "A. B! C?" yields
4 segments and splitting "A." yields 2 segments. -/
theorem claim3_amended :
    (∀ c : Char, isSentenceDelim c = true ↔ c ∈ ['.', '?', ':', '!']) ∧
    (∀ (s : List Char) (c : Char), isSentenceDelim c = true →
      (splitSentences (s ++ [c])).getLast? = some []) ∧
    splitSentences "A. B! C?".toList = ["A".toList, " B".toList, " C".toList, []] ∧
    splitSentences "A.".toList = ["A".toList, []] := by
  refine ⟨?_, ?_, by decide, by decide⟩
  · intro c
    simp only [isSentenceDelim, Bool.or_eq_true, beq_iff_eq, List.mem_cons,
      List.not_mem_nil, or_false]
    tauto
  · intro s c hc
    exact (splitRuns_trailing isSentenceDelim s c hc).1

/-- Witness for C3: a concrete text ending in a delimiter has an empty
final segment. -/
theorem claim3_amended_witness :
    isSentenceDelim '!' = true ∧
    (splitSentences ("Hi".toList ++ ['!'])).getLast? = some [] :=
  ⟨by decide, claim3_amended.2.1 "Hi".toList '!' (by decide)⟩

/-!
### Flesch readability: helper lemmas and claims C5, C6, C10
-/

theorem sentences_cast_ne_zero (input : List Char) :
    ((splitSentences input).length : ℚ) ≠ 0 := by
  exact_mod_cast Nat.pos_iff_ne_zero.mp (length_splitRuns_pos isSentenceDelim input)

theorem words_cast_ne_zero {input : List Char} (h : nonEmptyWords input ≠ []) :
    ((nonEmptyWords input).length : ℚ) ≠ 0 := by
  exact_mod_cast fun h0 => h (List.length_eq_zero.mp h0)

theorem flesch_reading_ease_eq (d : Dict) (input : List Char)
    (h : nonEmptyWords input ≠ []) :
    flesch_reading_ease d input =
      some (206.835
        - 1.015 * (((nonEmptyWords input).length : ℚ) / ((splitSentences input).length : ℚ))
        - 84.6 * ((((nonEmptyWords input).map (count_syllables d)).sum : ℚ)
            / ((nonEmptyWords input).length : ℚ))) := by
  simp [flesch_reading_ease, flesch_params, pydiv, sentences_cast_ne_zero input,
    words_cast_ne_zero h]

theorem flesch_kincaid_grade_level_eq (d : Dict) (input : List Char)
    (h : nonEmptyWords input ≠ []) :
    flesch_kincaid_grade_level d input =
      some (0.39 * (((nonEmptyWords input).length : ℚ) / ((splitSentences input).length : ℚ))
        + 11.8 * ((((nonEmptyWords input).map (count_syllables d)).sum : ℚ)
            / ((nonEmptyWords input).length : ℚ))
        - 15.59) := by
  simp [flesch_kincaid_grade_level, flesch_params, pydiv, sentences_cast_ne_zero input,
    words_cast_ne_zero h]

theorem flesch_reading_ease_none_iff (d : Dict) (input : List Char) :
    flesch_reading_ease d input = none ↔ nonEmptyWords input = [] := by
  constructor
  · intro h
    by_contra hne
    rw [flesch_reading_ease_eq d input hne] at h
    cases h
  · intro h
    simp [flesch_reading_ease, flesch_params, pydiv, h, sentences_cast_ne_zero input]

theorem flesch_kincaid_grade_level_none_iff (d : Dict) (input : List Char) :
    flesch_kincaid_grade_level d input = none ↔ nonEmptyWords input = [] := by
  constructor
  · intro h
    by_contra hne
    rw [flesch_kincaid_grade_level_eq d input hne] at h
    cases h
  · intro h
    simp [flesch_kincaid_grade_level, flesch_params, pydiv, h, sentences_cast_ne_zero input]

/-- C5: for every text with at least one non-empty word token, the two
readability scores equal the Flesch formulas over the `flesch_params`
counts: the sentence-split segment count, the number of non-empty word
tokens, and the sum of `count_syllables` over those tokens. -/
theorem claim5 (d : Dict) (input : List Char) (h : nonEmptyWords input ≠ []) :
    flesch_params d input =
      (((splitSentences input).length : ℚ), ((nonEmptyWords input).length : ℚ),
        (((nonEmptyWords input).map (count_syllables d)).sum : ℚ)) ∧
    flesch_reading_ease d input =
      some (206.835
        - 1.015 * (((nonEmptyWords input).length : ℚ) / ((splitSentences input).length : ℚ))
        - 84.6 * ((((nonEmptyWords input).map (count_syllables d)).sum : ℚ)
            / ((nonEmptyWords input).length : ℚ))) ∧
    flesch_kincaid_grade_level d input =
      some (0.39 * (((nonEmptyWords input).length : ℚ) / ((splitSentences input).length : ℚ))
        + 11.8 * ((((nonEmptyWords input).map (count_syllables d)).sum : ℚ)
            / ((nonEmptyWords input).length : ℚ))
        - 15.59) :=
  ⟨rfl, flesch_reading_ease_eq d input h, flesch_kincaid_grade_level_eq d input h⟩

/-- Witness for C5 on the text "The cat sat." with an empty dictionary:
2 sentence segments, 3 non-empty words, 3 syllables by the fallback. -/
theorem claim5_witness :
    nonEmptyWords "The cat sat.".toList ≠ [] ∧
    (flesch_params [] "The cat sat.".toList =
      (((splitSentences "The cat sat.".toList).length : ℚ),
        ((nonEmptyWords "The cat sat.".toList).length : ℚ),
        (((nonEmptyWords "The cat sat.".toList).map (count_syllables [])).sum : ℚ)) ∧
    flesch_reading_ease [] "The cat sat.".toList =
      some (206.835
        - 1.015 * (((nonEmptyWords "The cat sat.".toList).length : ℚ)
            / ((splitSentences "The cat sat.".toList).length : ℚ))
        - 84.6 * ((((nonEmptyWords "The cat sat.".toList).map (count_syllables [])).sum : ℚ)
            / ((nonEmptyWords "The cat sat.".toList).length : ℚ))) ∧
    flesch_kincaid_grade_level [] "The cat sat.".toList =
      some (0.39 * (((nonEmptyWords "The cat sat.".toList).length : ℚ)
            / ((splitSentences "The cat sat.".toList).length : ℚ))
        + 11.8 * ((((nonEmptyWords "The cat sat.".toList).map (count_syllables [])).sum : ℚ)
            / ((nonEmptyWords "The cat sat.".toList).length : ℚ))
        - 15.59)) :=
  ⟨by decide, claim5 [] "The cat sat.".toList (by decide)⟩

/-- C6: on input with zero non-empty word tokens both readability
functions fail with a division error (modelled as `none`): the syllable
count is divided by the zero word count with no guard. -/
theorem claim6 (d : Dict) (input : List Char) (h : nonEmptyWords input = []) :
    flesch_reading_ease d input = none ∧ flesch_kincaid_grade_level d input = none :=
  ⟨(flesch_reading_ease_none_iff d input).mpr h,
   (flesch_kincaid_grade_level_none_iff d input).mpr h⟩

/-- Witness for C6: the empty string has no non-empty word tokens and
both scores fail. -/
theorem claim6_witness :
    nonEmptyWords "".toList = [] ∧
    (flesch_reading_ease [] "".toList = none ∧
      flesch_kincaid_grade_level [] "".toList = none) :=
  ⟨by decide, claim6 [] "".toList (by decide)⟩

/-- C10: splitting any string yields at least one segment, so the
sentence count is at least 1 and the sentence-count division never
fails; each readability function fails exactly when the non-empty word
count is zero. -/
theorem claim10 (d : Dict) (input : List Char) :
    0 < (splitSentences input).length ∧
    (flesch_reading_ease d input = none ↔ nonEmptyWords input = []) ∧
    (flesch_kincaid_grade_level d input = none ↔ nonEmptyWords input = []) :=
  ⟨length_splitRuns_pos isSentenceDelim input,
   flesch_reading_ease_none_iff d input,
   flesch_kincaid_grade_level_none_iff d input⟩

/-!
### Claim C7: `get_total_word_count` versus the filtered word count
-/

/-- C7: `get_total_word_count` is the number of tokens (empty-string
tokens included) of the unfiltered split on runs of non-word characters;
for text beginning or ending with such a delimiter character it strictly
exceeds the filtered word count used by `flesch_params`. -/
theorem claim7 (input : List Char) :
    get_total_word_count input = (splitWords input).length ∧
    ((∃ c cs, input = c :: cs ∧ isWordChar c = false) ∨
     (∃ cs c, input = cs ++ [c] ∧ isWordChar c = false) →
      (nonEmptyWords input).length < get_total_word_count input) := by
  refine ⟨rfl, fun h => ?_⟩
  have hmem : [] ∈ splitWords input := by
    rcases h with ⟨c, cs, rfl, hc⟩ | ⟨cs, c, rfl, hc⟩
    · have hh := splitRuns_head? (fun c => !(isWordChar c)) (c :: cs)
      have ht : (c :: cs).takeWhile (fun x => !(!(isWordChar x))) = [] := by
        simp [List.takeWhile_cons, hc]
      rw [ht] at hh
      exact List.mem_of_mem_head? (Option.mem_def.mpr hh)
    · have htr := splitRuns_trailing (fun c => !(isWordChar c)) cs c (by simp [hc])
      exact List.mem_of_getLast?_eq_some htr.1
  exact length_filter_lt_of_mem hmem rfl

/-- Witness for C7: " hi" starts with a space; the unfiltered split has
2 tokens while only 1 is non-empty. -/
theorem claim7_witness :
    ((∃ c cs, " hi".toList = c :: cs ∧ isWordChar c = false) ∨
     (∃ cs c, " hi".toList = cs ++ [c] ∧ isWordChar c = false)) ∧
    (nonEmptyWords " hi".toList).length < get_total_word_count " hi".toList :=
  ⟨Or.inl ⟨' ', "hi".toList, by decide, by decide⟩,
   (claim7 " hi".toList).2 (Or.inl ⟨' ', "hi".toList, by decide, by decide⟩)⟩

/-!
### Claim C9: the sorted output of `get_words_with_count`
-/

/-- C9: the sorted output of `get_words_with_count` is sorted by count
descending; within each count band the entries are exactly those of the
insertion-ordered dict in first-encounter order (the sort is stable on
count only); and stably re-sorting the output by count descending yields
the same sequence. -/
theorem claim9 (input : List Char) (exclude_boring exclude_pronouns : Bool) :
    (get_words_with_count input exclude_boring exclude_pronouns).Pairwise
      (fun a b => b.2 ≤ a.2) ∧
    (∀ n : Nat, (get_words_with_count input exclude_boring exclude_pronouns).filter
        (fun e => decide (e.2 = n)) =
      (wordsDict input exclude_boring exclude_pronouns).filter
        (fun e => decide (e.2 = n))) ∧
    sortDescBy (fun e => e.2) (get_words_with_count input exclude_boring exclude_pronouns) =
      get_words_with_count input exclude_boring exclude_pronouns :=
  ⟨pairwise_sortDescBy _ _,
   fun n => sortDescBy_filter _ _ n,
   sortDescBy_eq_self _ (pairwise_sortDescBy _ _)⟩

/-!
### Claim C1: stoplist filtering in `get_words_with_count`
-/

theorem alookup_cons {β : Type} (u : List Char) (e : List Char × β)
    (d : List (List Char × β)) :
    alookup u (e :: d) = if e.1 = u then some e.2 else alookup u d := rfl

theorem alookup_map_bumped (w u : List Char) (hne : u ≠ w)
    (ws : List (List Char × Nat)) :
    alookup u (ws.map (fun e => if e.1 = w then (e.1, e.2 + 1) else e)) =
      alookup u ws := by
  induction ws with
  | nil => rfl
  | cons e ws ih =>
    have hwu : ¬(w = u) := fun h => hne h.symm
    by_cases hew : e.1 = w
    · simp [alookup_cons, hew, hwu, ih]
    · by_cases heu : e.1 = u <;> simp [alookup_cons, hew, heu, hne, hwu, ih]

theorem alookup_append_ne (u w : List Char) (hne : u ≠ w) (v : Nat)
    (ws : List (List Char × Nat)) :
    alookup u (ws ++ [(w, v)]) = alookup u ws := by
  induction ws with
  | nil =>
    have hwu : ¬(w = u) := fun h => hne h.symm
    simp [alookup, alookup_cons, hwu]
  | cons e ws ih => by_cases heu : e.1 = u <;> simp [alookup_cons, heu, ih]

theorem alookup_bumpWord_ne {u w : List Char} (hne : u ≠ w)
    (ws : List (List Char × Nat)) :
    alookup u (bumpWord ws w) = alookup u ws := by
  unfold bumpWord
  cases h : alookup w ws with
  | some n => exact alookup_map_bumped w u hne ws
  | none => exact alookup_append_ne u w hne 1 ws

theorem alookup_foldl_bumpWord_not_mem {u : List Char} (ts : List (List Char))
    (acc : List (List Char × Nat)) (h : u ∉ ts) :
    alookup u (ts.foldl bumpWord acc) = alookup u acc := by
  induction ts generalizing acc with
  | nil => rfl
  | cons t ts ih =>
    rw [List.foldl_cons,
      ih (bumpWord acc t) (fun m => h (List.mem_cons_of_mem _ m)),
      alookup_bumpWord_ne (fun e => h (by rw [e]; exact List.mem_cons_self t ts)) acc]

theorem wordsStep_eq (eb ep : Bool) (ws : List (List Char × Nat)) (w : List Char) :
    wordsStep eb ep ws w = if keepB eb ep w = true then bumpWord ws w else ws := by
  cases hA : eb && decide (w ∈ BORING_WORDS) <;>
    cases hB : ep && decide (w ∈ PRONOUNS) <;>
      simp [wordsStep, keepB, hA, hB]

theorem foldl_wordsStep_eq_filter (eb ep : Bool) (ts : List (List Char))
    (acc : List (List Char × Nat)) :
    ts.foldl (wordsStep eb ep) acc = (ts.filter (keepB eb ep)).foldl bumpWord acc := by
  induction ts generalizing acc with
  | nil => rfl
  | cons t ts ih =>
    rw [List.foldl_cons, List.filter_cons, wordsStep_eq]
    by_cases hk : keepB eb ep t = true
    · rw [if_pos hk, hk, if_pos rfl, List.foldl_cons, ih]
    · have hk2 : keepB eb ep t = false := by simpa using hk
      rw [if_neg hk, hk2, ih]
      simp

/-- C1 counterexample: with `exclude_boring=true` and
`exclude_pronouns=true`, the token "HER" — a pronoun not in
`BORING_WORDS` — is NOT counted: the `elif` chain applies both stoplists
(one branch per token), so the result of `get_words_with_count` is
empty, contradicting the claim that only the boring-word exclusion is
applied. -/
theorem claim1_cex :
    "HER".toList ∈ PRONOUNS ∧
    "HER".toList ∉ BORING_WORDS ∧
    get_words_with_count "HER".toList true true = [] ∧
    get_most_used_words "HER".toList true = [] := by
  decide

/-- C1 amended: when both flags are set, both exclusions apply — a token
is counted iff it passes every requested stoplist (the boring-word check
is merely tested first per token); in particular with
`exclude_pronouns=true` no pronoun ever appears in the result. -/
theorem claim1_amended (input : List Char) (eb ep : Bool) :
    wordsDict input eb ep =
      buildCounts ((splitWords (input.map Char.toUpper)).filter (keepB eb ep)) ∧
    (∀ w : List Char, w ∈ PRONOUNS → alookup w (wordsDict input eb true) = none) := by
  constructor
  · exact foldl_wordsStep_eq_filter eb ep _ []
  · intro w hw
    rw [show wordsDict input eb true =
        buildCounts ((splitWords (input.map Char.toUpper)).filter (keepB eb true)) from
      foldl_wordsStep_eq_filter eb true _ []]
    apply alookup_foldl_bumpWord_not_mem
    intro hmem
    have hk := (List.mem_filter.mp hmem).2
    simp [keepB, hw] at hk

/-- Witness for C1: the pronoun "HER" occurs in the text but is absent
from the exclude-pronouns word counts. -/
theorem claim1_amended_witness :
    "HER".toList ∈ PRONOUNS ∧
    alookup "HER".toList (wordsDict "Call her now".toList false true) = none :=
  ⟨by decide, (claim1_amended "Call her now".toList false true).2 _ (by decide)⟩

/-!
### Claim C8: the dictionary loader
-/

theorem dropWhile_head_false {α : Type} {p : α → Bool} {l : List α} {r : α}
    {rs : List α} (h : l.dropWhile p = r :: rs) : p r = false := by
  induction l with
  | nil => cases h
  | cons a l ih =>
    rw [List.dropWhile_cons] at h
    split at h
    · exact ih h
    · rename_i hpa
      injection h with h1 h2
      subst h1
      simpa using hpa

theorem init_step_eq (d : Dict) (line : List Char) :
    (match splitFirstWS line with
      | [w, rest] => (w, phonemeDigitCount rest) :: d
      | _ => d) =
      match parseSpecLine line with
      | some e => e :: d
      | none => d := by
  rcases hdw : line.dropWhile (fun c => !(isSpace c)) with _ | ⟨r, rs⟩
  · have hany : line.any isSpace = false := by
      rw [List.any_eq_false]
      intro x hx
      have := List.dropWhile_eq_nil_iff.mp hdw x hx
      simpa using this
    have h1 : splitFirstWS line = [line.takeWhile (fun c => !(isSpace c))] := by
      unfold splitFirstWS
      rw [hdw]
    have h2 : parseSpecLine line = none := by
      unfold parseSpecLine
      rw [hany]
      rfl
    rw [h1, h2]
  · have hsp : isSpace r = true := by
      have := dropWhile_head_false hdw
      simpa using this
    have hany : line.any isSpace = true := by
      rw [List.any_eq_true]
      exact ⟨r, (List.dropWhile_suffix _).subset (hdw ▸ List.mem_cons_self r rs), hsp⟩
    have h1 : splitFirstWS line =
        [line.takeWhile (fun c => !(isSpace c)), (r :: rs).dropWhile isSpace] := by
      unfold splitFirstWS
      rw [hdw]
    have h2 : parseSpecLine line =
        some (line.takeWhile (fun c => !(isSpace c)),
          phonemeDigitCount ((r :: rs).dropWhile isSpace)) := by
      unfold parseSpecLine
      rw [hany, hdw]
      rfl
    rw [h1, h2]

theorem foldl_init_step (lines : List (List Char)) (d : Dict) :
    lines.foldl (fun d line =>
      match splitFirstWS line with
      | [w, rest] => (w, phonemeDigitCount rest) :: d
      | _ => d) d = (lines.filterMap parseSpecLine).reverse ++ d := by
  induction lines generalizing d with
  | nil => simp
  | cons line lines ih =>
    rw [List.foldl_cons, List.filterMap_cons, init_step_eq d line]
    cases hp : parseSpecLine line with
    | none => simp [ih]
    | some e =>
      rw [ih (e :: d)]
      simp

/-- C8 counterexample: the line "A " splits into the word token "A" and
an EMPTY remainder, yet it is not skipped — it contributes the entry
`A ↦ 0` — contradicting the claim that a line without a non-empty
remainder contributes no entry (the code only checks that the split has
two parts, which holds whenever the line contains any whitespace). -/
theorem claim8_cex :
    splitFirstWS "A ".toList = ["A".toList, []] ∧
    init_cmu_dict ["A ".toList] = [("A".toList, 0)] ∧
    alookup "A".toList (init_cmu_dict ["A ".toList]) = some 0 := by
  decide

/-- C8 amended: a line containing no whitespace is skipped; every line
containing whitespace is processed, with the word being the prefix
before the first whitespace run and the remainder the (possibly empty)
suffix after it; the stored count is the number of whitespace-separated
phonemes in the remainder whose final character is a digit; and on
duplicate word keys the last line wins (the lookup of a key added last
returns its value regardless of earlier lines). -/
theorem claim8_amended (lines : List (List Char)) :
    init_cmu_dict lines = (lines.filterMap parseSpecLine).reverse ∧
    (∀ (prior : List (List Char)) (line k : List Char) (v : Nat),
      parseSpecLine line = some (k, v) →
        alookup k (init_cmu_dict (prior ++ [line])) = some v) := by
  constructor
  · rw [show init_cmu_dict lines = lines.foldl (fun d line =>
        match splitFirstWS line with
        | [w, rest] => (w, phonemeDigitCount rest) :: d
        | _ => d) [] from rfl, foldl_init_step]
    simp
  · intro prior line k v hp
    rw [show init_cmu_dict (prior ++ [line]) = (prior ++ [line]).foldl (fun d line =>
        match splitFirstWS line with
        | [w, rest] => (w, phonemeDigitCount rest) :: d
        | _ => d) [] from rfl, foldl_init_step, List.filterMap_append]
    simp [hp, alookup_cons]

/-- Witness for C8: a well-formed CMU line parses to 2 stressed phonemes,
and its entry overwrites an earlier entry for the same word. -/
theorem claim8_witness :
    parseSpecLine "HELLO HH AH0 L OW1".toList = some ("HELLO".toList, 2) ∧
    alookup "HELLO".toList
      (init_cmu_dict (["HELLO X0 X0 X0".toList] ++ ["HELLO HH AH0 L OW1".toList])) =
        some 2 :=
  ⟨by decide,
   (claim8_amended []).2 ["HELLO X0 X0 X0".toList] "HELLO HH AH0 L OW1".toList
     "HELLO".toList 2 (by decide)⟩

/-!
### Claim C4: `get_words_with_deltas`
-/

theorem get_words_with_deltas_eq (a b : List Char) :
    get_words_with_deltas a b = (sortDescBy (fun e => e.2) (deltaList a b)).take 20 := rfl

/-- C4: `get_words_with_deltas(A, B)` is the top 20 of the delta list —
one pair `(word, countInA - countInB)` per word of A's frequency table,
a word absent from B counting 0 — sorted by delta descending: it has
`min 20 |A|` entries, is sorted by delta descending, every entry comes
from a word of A's table with its exact delta (so a word occurring only
in B never appears), every word of A's table yields an entry of the
sorted delta list, and every word of A's table that did not make the cut
has a delta no larger than any returned delta. -/
theorem claim4 (a b : List Char) :
    (get_words_with_deltas a b).length = min 20 (wordsDict a false false).length ∧
    (get_words_with_deltas a b).Pairwise (fun x y => y.2 ≤ x.2) ∧
    (∀ e ∈ get_words_with_deltas a b,
      ∃ na : Nat, (e.1, na) ∈ wordsDict a false false ∧
        e.2 = (na : ℤ) - countInB b e.1) ∧
    (∀ k na, (k, na) ∈ wordsDict a false false →
      (k, (na : ℤ) - countInB b k) ∈ sortDescBy (fun e => e.2) (deltaList a b)) ∧
    (∀ k na, (k, na) ∈ wordsDict a false false →
      k ∉ (get_words_with_deltas a b).map Prod.fst →
      ∀ e ∈ get_words_with_deltas a b, (na : ℤ) - countInB b k ≤ e.2) := by
  have hlen : (deltaList a b).length = (wordsDict a false false).length := by
    rw [deltaList, List.length_map, get_words_with_count, sortDescBy_length]
  have hmemA : ∀ {k : List Char} {na : Nat}, (k, na) ∈ wordsDict a false false →
      (k, (na : ℤ) - countInB b k) ∈ sortDescBy (fun e => e.2) (deltaList a b) := by
    intro k na h
    apply (sortDescBy_perm (fun e : List Char × ℤ => e.2) (deltaList a b)).mem_iff.mpr
    rw [deltaList]
    exact List.mem_map.mpr
      ⟨(k, na),
       (sortDescBy_perm (fun e : List Char × Nat => e.2) _).mem_iff.mpr h, rfl⟩
  refine ⟨?_, ?_, ?_, fun k na h => hmemA h, ?_⟩
  · rw [get_words_with_deltas_eq, List.length_take, sortDescBy_length, hlen]
  · rw [get_words_with_deltas_eq]
    exact List.Pairwise.sublist (List.take_sublist _ _)
      (pairwise_sortDescBy (fun e => e.2) (deltaList a b))
  · intro e he
    rw [get_words_with_deltas_eq] at he
    have he2 : e ∈ deltaList a b :=
      (sortDescBy_perm (fun e : List Char × ℤ => e.2) _).mem_iff.mp
        (List.mem_of_mem_take he)
    rw [deltaList] at he2
    rcases List.mem_map.mp he2 with ⟨w, hw, heq⟩
    refine ⟨w.2, ?_, ?_⟩
    · have hw2 : w ∈ wordsDict a false false :=
        (sortDescBy_perm (fun e : List Char × Nat => e.2) _).mem_iff.mp hw
      rw [← heq]
      simpa using hw2
    · rw [← heq]
  · intro k na h hnot e he
    have hpair := hmemA h
    rw [← List.take_append_drop 20 (sortDescBy (fun e => e.2) (deltaList a b))]
      at hpair
    rcases List.mem_append.mp hpair with hin | hin
    · exact absurd (List.mem_map_of_mem Prod.fst
        (get_words_with_deltas_eq a b ▸ hin)) hnot
    · have hsorted := pairwise_sortDescBy (fun e : List Char × ℤ => e.2) (deltaList a b)
      rw [← List.take_append_drop 20 (sortDescBy (fun e => e.2) (deltaList a b))]
        at hsorted
      have := (List.pairwise_append.mp hsorted).2.2
      rw [get_words_with_deltas_eq] at he
      exact this e he _ hin

/-- Witness for C4 on a text A with 21 distinct words (so one word,
"W20", is cut from the top 20) and a text B sharing none of them. -/
theorem claim4_witness :
    (("W20".toList, 1) ∈ wordsDict "w0 w0 w1 w2 w3 w4 w5 w6 w7 w8 w9 w10 w11 w12 w13 w14 w15 w16 w17 w18 w19 w20".toList false false ∧
     "W20".toList ∉ (get_words_with_deltas "w0 w0 w1 w2 w3 w4 w5 w6 w7 w8 w9 w10 w11 w12 w13 w14 w15 w16 w17 w18 w19 w20".toList "z".toList).map Prod.fst ∧
     ("W1".toList, (1 : ℤ)) ∈ get_words_with_deltas "w0 w0 w1 w2 w3 w4 w5 w6 w7 w8 w9 w10 w11 w12 w13 w14 w15 w16 w17 w18 w19 w20".toList "z".toList) ∧
    (1 : ℤ) - countInB "z".toList "W20".toList ≤ (1 : ℤ) ∧
    (∃ na : Nat, ("W1".toList, na) ∈ wordsDict "w0 w0 w1 w2 w3 w4 w5 w6 w7 w8 w9 w10 w11 w12 w13 w14 w15 w16 w17 w18 w19 w20".toList false false ∧
      (1 : ℤ) = (na : ℤ) - countInB "z".toList "W1".toList) :=
  ⟨⟨by decide, by decide, by decide⟩,
   (claim4 "w0 w0 w1 w2 w3 w4 w5 w6 w7 w8 w9 w10 w11 w12 w13 w14 w15 w16 w17 w18 w19 w20".toList "z".toList).2.2.2.2 "W20".toList 1 (by decide) (by decide)
     ("W1".toList, (1 : ℤ)) (by decide),
   (claim4 "w0 w0 w1 w2 w3 w4 w5 w6 w7 w8 w9 w10 w11 w12 w13 w14 w15 w16 w17 w18 w19 w20".toList "z".toList).2.2.1 ("W1".toList, (1 : ℤ)) (by decide)⟩

end Debate








